import Mathlib

/-!
Verification development for the upload/storage orchestration pipeline of the
jobima20/ipfsBlockchain1 repository.

The JavaScript sources are embedded shallowly:
* `ProviderManager` (src/providers/ProviderManager.js): strategy table,
  `selectStrategy`, `upload` with failover, `download` across providers,
  `generatePossibleKeys`.
* `FileProcessor` (src/core/FileProcessor.js): `processFile` (dedup check,
  compression, encryption, chunking stages), `compressFile`, `chunkFile`,
  `reconstructFile`.
* `encryption` (src/utils/encryption.js): `encrypt` / `decrypt` in the
  combined IV + tag + ciphertext format.  The AES-256-GCM stream produced by
  the Node crypto library is abstracted as an arbitrary keystream function of
  the key (the source calls `crypto.createCipher`, which derives the cipher
  state from the key material alone and ignores the separately passed IV),
  and the authentication tag as an arbitrary 16-byte MAC of key and
  ciphertext; all theorems are universally quantified over both.
* `MetadataManager` (src/core/MetadataManager.js): `getMetadata` /
  `filterMetadata`, including the aliasing of the nested `processing` and
  `blockchain` objects created by the top-level spread copy: the embedding
  returns both the caller-visible object and the post-call state of the
  cached object, which share those nested objects in the source.
* the `POST /api/upload` express handler (src/app.js): validation →
  `processFile` → `providerManager.upload` → metadata creation.

File bytes are `List Nat`; cryptographic hashes (`calculateFileHash`,
SHA-256 hex) are abstracted as an arbitrary function `H : List Nat → String`
over which theorems quantify; the gzip compressor (`pako.gzip`) likewise as
`gz : List Nat → List Nat`.  Machine integers do not overflow in any code
path modelled here (JS numbers are used as plain counters and sizes), so
sizes are `Nat`.
-/

namespace ProviderManager

/-- The two storage providers registered by `initializeProviders`
(config.storj and config.arweave are both present in the shipped
configuration, so `providers.get` succeeds for both names). -/
inductive PName where
  | storj
  | arweave
deriving DecidableEq, Repr

/-- Insertion order of the `providers` / `healthStatus` maps:
storj is registered first, then arweave. -/
def providerKeys : List PName := [PName.storj, PName.arweave]

/-- The option flags consulted by the strategy conditions and by `upload`
(`options.permanent`, `options.critical`, `options.createBackup !== false`). -/
structure UploadOptions where
  permanent : Bool := false
  critical : Bool := false
  createBackup : Bool := true
deriving DecidableEq, Repr

/-- One entry of the `uploadStrategies` map of `defineUploadStrategies`. -/
structure Strategy where
  sname : String
  primary : PName
  backup : Option PName
  condition : Nat → UploadOptions → Bool

/-- `defineUploadStrategies`: the strategies in the insertion order of the
`uploadStrategies` map, which is the order `selectStrategy` iterates them in:
small, medium, large, permanent, critical. -/
def uploadStrategies : List Strategy :=
  [ { sname := "small", primary := PName.storj, backup := some PName.arweave,
      condition := fun fileSize _ => decide (fileSize < 10 * 1024 * 1024) },
    { sname := "medium", primary := PName.storj, backup := none,
      condition := fun fileSize _ =>
        decide (10 * 1024 * 1024 ≤ fileSize) && decide (fileSize < 100 * 1024 * 1024) },
    { sname := "large", primary := PName.storj, backup := none,
      condition := fun fileSize _ => decide (100 * 1024 * 1024 ≤ fileSize) },
    { sname := "permanent", primary := PName.arweave, backup := some PName.storj,
      condition := fun _ opts => opts.permanent },
    { sname := "critical", primary := PName.storj, backup := some PName.arweave,
      condition := fun fileSize opts =>
        opts.critical && decide (fileSize < 200 * 1024 * 1024) } ]

/-- `isProviderHealthy`: the `healthStatus` map is abstracted as a function
`health : PName → Bool` giving whether the provider's most recent health
check reported `healthy`. -/
def isProviderHealthy (health : PName → Bool) (p : PName) : Bool := health p

/-- `getHealthiestProvider`: first provider whose health entry is healthy, in
map insertion order; falls back to the first registered provider. -/
def getHealthiestProvider (health : PName → Bool) : Option PName :=
  match providerKeys.find? (fun p => isProviderHealthy health p) with
  | some p => some p
  | none => providerKeys.head?

/-- The object returned by `selectStrategy`.  `primary` and `backup` are the
health-adjusted provider NAMES; `primaryProvider` and `backupProvider` are
`providers.get(strategy.primary)` and `providers.get(strategy.backup)`, i.e.
the provider objects looked up by the NOMINAL names of the matched strategy,
with no health adjustment. -/
structure SelectedStrategy where
  sname : String
  primary : Option PName
  backup : Option PName
  primaryProvider : Option PName
  backupProvider : Option PName
deriving DecidableEq, Repr

/-- `ProviderManager.selectStrategy(fileSize, options)`: first strategy whose
condition holds wins; otherwise the `default` branch uses
`getHealthiestProvider`. -/
def selectStrategy (health : PName → Bool) (fileSize : Nat)
    (opts : UploadOptions) : SelectedStrategy :=
  match uploadStrategies.find? (fun s => s.condition fileSize opts) with
  | some s =>
    let primaryHealthy := isProviderHealthy health s.primary
    let backupHealthy :=
      match s.backup with
      | some b => isProviderHealthy health b
      | none => false
    { sname := s.sname
      primary :=
        if primaryHealthy then some s.primary
        else if backupHealthy then s.backup else none
      backup :=
        match s.backup with
        | some b => if backupHealthy then some b else none
        | none => none
      primaryProvider := some s.primary
      backupProvider := s.backup }
  | none =>
    { sname := "default"
      primary := getHealthiestProvider health
      backup := none
      primaryProvider := getHealthiestProvider health
      backupProvider := none }

/-- The result object of a single provider `upload` call (StorjProvider.upload /
ArweaveProvider.upload); only the fields inspected by the claims are kept. -/
structure PutOk where
  provider : PName
  fileId : String
deriving DecidableEq, Repr

/-- The caller-visible result object assembled at the end of
`ProviderManager.upload`: `primary` is `primaryResult`, `backups` the other
entries of `results`, `totalUploads` is `results.length`. -/
structure UploadResultRec where
  primary : PutOk
  backups : List PutOk
  strategyName : String
  totalUploads : Nat
deriving DecidableEq, Repr

/-- Outcome of `ProviderManager.upload` together with the trace of which
providers were actually asked to accept the bytes (each entry is one
`provider.upload(filePath, …)` call, in program order). -/
structure UploadOutcome where
  result : Except String UploadResultRec
  attempts : List PName
deriving Repr

/-- The "Backup upload" step at the end of `ProviderManager.upload`: runs when
a backup provider object exists, the (health-adjusted) backup name differs
from the (health-adjusted) primary name and the caller did not disable
backups; its failure is swallowed. `primaryResult` is the result promoted to
`primary` earlier in the function. -/
def backupStep (strategy : SelectedStrategy) (opts : UploadOptions)
    (putResult : PName → Except String PutOk)
    (primaryResult : PutOk) (attempts : List PName) : UploadOutcome :=
  match strategy.backupProvider with
  | some b =>
    if decide (strategy.backup ≠ strategy.primary) && opts.createBackup then
      match putResult b with
      | Except.ok r2 =>
        { result := Except.ok
            { primary := primaryResult, backups := [r2],
              strategyName := strategy.sname, totalUploads := 2 },
          attempts := attempts ++ [b] }
      | Except.error _ =>
        { result := Except.ok
            { primary := primaryResult, backups := [],
              strategyName := strategy.sname, totalUploads := 1 },
          attempts := attempts ++ [b] }
    else
      { result := Except.ok
          { primary := primaryResult, backups := [],
            strategyName := strategy.sname, totalUploads := 1 },
        attempts := attempts }
  | none =>
    { result := Except.ok
        { primary := primaryResult, backups := [],
          strategyName := strategy.sname, totalUploads := 1 },
      attempts := attempts }

/-- `ProviderManager.upload(filePath, options)`.  The outcome of each
provider's own `upload` call is abstracted as `putResult : PName → Except
String PutOk` (error = the exception message).  The constructor sets
`failoverEnabled = true`; it is kept as a parameter.  Control flow: if the
looked-up primary provider object is missing, throw the no-healthy-providers
error; otherwise attempt the primary put, on failure attempt the backup
provider when present and failover is enabled (its success is promoted to
`primaryResult`), and when both fail throw the combined error; finally run
the best-effort backup step. -/
def upload (health : PName → Bool) (fileSize : Nat) (opts : UploadOptions)
    (failoverEnabled : Bool) (putResult : PName → Except String PutOk) :
    UploadOutcome :=
  let strategy := selectStrategy health fileSize opts
  match strategy.primaryProvider with
  | none =>
    { result := Except.error "No healthy providers available for upload",
      attempts := [] }
  | some p =>
    match putResult p with
    | Except.ok r => backupStep strategy opts putResult r [p]
    | Except.error e =>
      match strategy.backupProvider with
      | some b =>
        if failoverEnabled then
          match putResult b with
          | Except.ok rb => backupStep strategy opts putResult rb [p, b]
          | Except.error e2 =>
            { result := Except.error
                ("Both primary and backup uploads failed: " ++ e ++ ", " ++ e2),
              attempts := [p, b] }
        else { result := Except.error e, attempts := [p] }
      | none => { result := Except.error e, attempts := [p] }

/-- Health table in which only arweave's last check reported healthy:
the situation of concrete scenario C of the specification. -/
def healthArweaveOnly : PName → Bool
  | PName.storj => false
  | PName.arweave => true

/-- Per-provider put outcomes in which every provider accepts the bytes. -/
def putAllOk : PName → Except String PutOk :=
  fun p => Except.ok { provider := p, fileId := "f" }

/-- Per-provider put outcomes used to exercise failover: the storj put throws
and the arweave put succeeds. -/
def putStorjFails : PName → Except String PutOk
  | PName.storj => Except.error "storj put failed"
  | PName.arweave => Except.ok { provider := PName.arweave, fileId := "f2" }

/-- One object held by a provider's backend: the stored bytes and the
`file-hash` attribute recorded in the object's metadata at upload time
(read back through `headObject` before each download). -/
structure StoredObject where
  bytes : List Nat
  recordedHash : String
deriving DecidableEq, Repr

/-- The observable state of one provider backend: whether the provider is
connected and the keyed blob store behind `getObject` / `headObject`. -/
structure BackendState where
  connected : Bool
  store : List (String × StoredObject)
deriving DecidableEq, Repr

/-- The result object of `StorjProvider.download` / `ArweaveProvider.download`:
the retrieved bytes, the hash recomputed over them, and the integrity flag
comparing it with the recorded hash. -/
structure DownloadOk where
  bytes : List Nat
  hash : String
  integrity : Bool
deriving DecidableEq, Repr

/-- `StorjProvider.download(key, …)` (ArweaveProvider.download is identical in
the modelled respects): requires the provider connected, reads the recorded
hash from the object's metadata, fetches the bytes, recomputes the hash over
the retrieved bytes, and — when `strictIntegrity` is set — fails on mismatch
instead of returning the bytes.  Absent key: `headObject` throws and the
error is rethrown wrapped. -/
def providerDownload (H : List Nat → String) (prov : BackendState)
    (key : String) (strictIntegrity : Bool) : Except String DownloadOk :=
  if prov.connected = false then Except.error "download failed: provider not connected"
  else
    match prov.store.lookup key with
    | none => Except.error "download failed: NoSuchKey"
    | some obj =>
      let downloadHash := H obj.bytes
      let isValid := decide (downloadHash = obj.recordedHash)
      if !isValid && strictIntegrity then
        Except.error "download failed: File integrity verification failed"
      else Except.ok { bytes := obj.bytes, hash := downloadHash, integrity := isValid }

/-- The JS `fileId.split('-')[0]`: the characters before the first dash (the
whole string when it has none). -/
def firstDashComponent (s : String) : String :=
  String.mk (s.data.takeWhile (fun ch => ch != Char.ofNat 45))

/-- `[...new Set(keys)]`: removes duplicates keeping first occurrences. -/
def dedupKeysAux : List String → List String → List String
  | [], _ => []
  | k :: rest, seen =>
    if seen.contains k then dedupKeysAux rest seen
    else k :: dedupKeysAux rest (k :: seen)

/-- See `dedupKeysAux`. -/
def dedupKeys (l : List String) : List String := dedupKeysAux l []

/-- `ProviderManager.generatePossibleKeys(fileId, options)`. -/
def generatePossibleKeys (fileId : String) (originalName : Option String) :
    List String :=
  dedupKeys
    ([ "uploads/" ++ fileId, "permanent/" ++ fileId ] ++
      (match originalName with
       | some n =>
         [ "uploads/" ++ fileId ++ "-" ++ n, "permanent/" ++ fileId ++ "-" ++ n ]
       | none => []) ++
      [ "uploads/" ++ firstDashComponent fileId ++ "-" ++ fileId,
        "permanent/" ++ firstDashComponent fileId ++ "-" ++ fileId ])

/-- The inner key loop of `ProviderManager.download`: try each candidate key
against one provider, swallowing every per-key error (`continue`) and
returning the first success. -/
def tryKeys (H : List Nat → String) (prov : BackendState) (strict : Bool) :
    List String → Option DownloadOk
  | [] => none
  | k :: rest =>
    match providerDownload H prov k strict with
    | Except.ok r => some r
    | Except.error _ => tryKeys H prov strict rest

/-- The provider loop of `ProviderManager.download`: skip providers whose
last health check did not report healthy, try the key patterns against each
remaining provider in map order, return the first success. -/
def downloadGo (H : List Nat → String) (health : PName → Bool)
    (backends : PName → BackendState) (keys : List String) (strict : Bool) :
    List PName → Option DownloadOk
  | [] => none
  | p :: rest =>
    if isProviderHealthy health p then
      match tryKeys H (backends p) strict keys with
      | some r => some r
      | none => downloadGo H health backends keys strict rest
    else downloadGo H health backends keys strict rest

/-- The aggregated failure thrown when every provider loop iteration failed:
the message is built from the `downloadAttempts` list. -/
structure DownloadError where
  message : String
  attempts : List (PName × String)
deriving DecidableEq, Repr

/-- Display name used in the aggregated error message. -/
def pnameStr : PName → String
  | PName.storj => "storj"
  | PName.arweave => "arweave"

/-- `ProviderManager.download(fileId, downloadPath, options)`.  The
`downloadAttempts` list is appended to only in the per-provider catch block;
that block is unreachable because the per-key loop already catches every
error a provider download can throw (and `generatePossibleKeys` cannot
throw), so on total failure the list is the empty `[]` and the aggregated
message carries no per-placement causes. -/
def download (H : List Nat → String) (health : PName → Bool)
    (backends : PName → BackendState) (fileId : String)
    (originalName : Option String) (strict : Bool) :
    Except DownloadError DownloadOk :=
  match downloadGo H health backends (generatePossibleKeys fileId originalName)
      strict providerKeys with
  | some r => Except.ok r
  | none =>
    Except.error
      { message := "Download failed from all providers: " ++
          String.intercalate ", "
            (([] : List (PName × String)).map
              (fun a => pnameStr a.1 ++ ": " ++ a.2)),
        attempts := [] }

end ProviderManager

namespace Encryption

/-- `IV_LENGTH` of src/utils/encryption.js. -/
def IV_LENGTH : Nat := 16

/-- `TAG_LENGTH` of src/utils/encryption.js. -/
def TAG_LENGTH : Nat := 16

/-- `KEY_LENGTH` of src/utils/encryption.js. -/
def KEY_LENGTH : Nat := 32

/-- XOR a byte sequence against a keystream given by position.  AES-256-GCM
encrypts (and decrypts) the payload by XORing it against the CTR-mode
keystream determined by the cipher state; the keystream itself is abstract
here (theorems hold for every keystream function). -/
def xorKeystream (ks : Nat → Nat) : List Nat → List Nat
  | [] => []
  | b :: rest => (b ^^^ ks 0) :: xorKeystream (fun i => ks (i + 1)) rest

/-- The 16-byte GCM authentication tag returned by `cipher.getAuthTag()` and
verified by `decipher.final()`, abstracted as a function of the key material
and the ciphertext (`mac` gives its byte at each position). -/
def gcmTag (mac : List Nat → List Nat → Nat → Nat) (key ct : List Nat) :
    List Nat :=
  (List.range TAG_LENGTH).map (mac key ct)

/-- The object returned by `encrypt`. -/
structure EncryptResult where
  encrypted : List Nat
  key : List Nat
  iv : List Nat
  tag : List Nat
deriving DecidableEq, Repr

/-- `encrypt(data, key, iv)` for a byte (Buffer) key: checks the key length
against `KEY_LENGTH` (throws otherwise — `Option.none`), encrypts the data,
reads the authentication tag, and returns the combined
IV + tag + ciphertext buffer together with the key, IV and tag.  The source
calls `crypto.createCipher`, which derives the cipher state from the key
material alone and ignores the separately passed IV, so the keystream is a
function of the key only; the string-key `scryptSync` path is not modelled.
The keystream `ks` and tag function `mac` are abstract parameters. -/
def encrypt (ks : List Nat → Nat → Nat) (mac : List Nat → List Nat → Nat → Nat)
    (data key iv : List Nat) : Option EncryptResult :=
  if key.length = KEY_LENGTH then
    let ct := xorKeystream (ks key) data
    let tag := gcmTag mac key ct
    some { encrypted := iv ++ (tag ++ ct), key := key, iv := iv, tag := tag }
  else none

/-- `decrypt(encryptedData, key)` in the combined-format path (no separate iv
and tag arguments): splits the buffer into IV, tag and ciphertext at the
fixed offsets, checks the key length, decrypts, and verifies the
authentication tag in `decipher.final()`, failing closed (`Option.none`) on
mismatch.  As in `encrypt`, `crypto.createDecipher` ignores the sliced-off
IV and derives the cipher state from the key material alone. -/
def decrypt (ks : List Nat → Nat → Nat) (mac : List Nat → List Nat → Nat → Nat)
    (encryptedData key : List Nat) : Option (List Nat) :=
  if encryptedData.length < IV_LENGTH + TAG_LENGTH then none
  else
    let authTag := (encryptedData.drop IV_LENGTH).take TAG_LENGTH
    let ct := encryptedData.drop (IV_LENGTH + TAG_LENGTH)
    if key.length = KEY_LENGTH then
      let pt := xorKeystream (ks key) ct
      if gcmTag mac key ct = authTag then some pt else none
    else none

end Encryption

namespace FileProcessor

/-- The configuration record of the FileProcessor constructor (defaults from
src/core/FileProcessor.js). -/
structure Config where
  chunkSize : Nat := 50 * 1024 * 1024
  compressionThreshold : Nat := 1024 * 1024
  enableCompression : Bool := true
  enableEncryption : Bool := true
  enableDeduplication : Bool := true
deriving DecidableEq, Repr

/-- The outcome of `compressFile`: when compression is beneficial the
compressed bytes (written to the temp path) are kept, otherwise no artifact
is produced. -/
structure CompressOutcome where
  beneficial : Bool
  bytes : Option (List Nat)
deriving DecidableEq, Repr

/-- `FileProcessor.compressFile(filePath, options)`: gzip the bytes and keep
the result only if `compressedSize < originalSize * 0.9`; the JS float
comparison is modelled as the exact rational comparison
`10 * compressedSize < 9 * originalSize`.  The compressor `pako.gzip` is the
abstract parameter `gz`. -/
def compressFile (gz : List Nat → List Nat) (data : List Nat) :
    CompressOutcome :=
  let compressed := gz data
  if 10 * compressed.length < 9 * data.length then
    { beneficial := true, bytes := some compressed }
  else
    { beneficial := false, bytes := none }

/-- Step 4 of `FileProcessor.processFile`: compression runs only when it is
enabled and the original size exceeds `compressionThreshold`, and its result
replaces the working bytes only when beneficial.  Returns the working bytes
and the `processing.compressed` flag. -/
def compressionStage (cfg : Config) (gz : List Nat → List Nat)
    (data : List Nat) : List Nat × Bool :=
  if cfg.enableCompression && decide (data.length > cfg.compressionThreshold) then
    let r := compressFile gz data
    if r.beneficial then (r.bytes.getD data, true) else (data, false)
  else (data, false)

/-- One element of the `chunks` array built by `chunkFile`. -/
structure ChunkDesc where
  index : Nat
  bytes : List Nat
  size : Nat
  hash : String
  startPos : Nat
  endPos : Nat
deriving DecidableEq, Repr

/-- `FileProcessor.chunkFile(filePath, options)`: `totalChunks =
Math.ceil(fileSize / chunkSize)`; chunk `i` is the byte range
`[i*chunkSize, min(i*chunkSize + chunkSize, fileSize))`, its hash is
recorded via `calculateFileHash` (the abstract `H`). -/
def chunkFile (H : List Nat → String) (chunkSize : Nat) (data : List Nat) :
    List ChunkDesc :=
  let totalChunks := (data.length + chunkSize - 1) / chunkSize
  (List.range totalChunks).map fun i =>
    let s := i * chunkSize
    let e := min (s + chunkSize) data.length
    let b := (data.drop s).take (e - s)
    { index := i, bytes := b, size := b.length, hash := H b,
      startPos := s, endPos := e }

/-- `FileProcessor.reconstructFile(chunks, outputPath)`: sorts the chunks by
ascending index (the source's comparison sort is modelled by insertion sort)
and concatenates their bytes. -/
def reconstructFile (chunks : List ChunkDesc) : List Nat :=
  ((List.insertionSort (fun a b => a.index ≤ b.index) chunks).map
    (fun c => c.bytes)).flatten

/-- One value of the `deduplicationCache` map (`originalHash` keyed): set at
the end of a non-deduplicated `processFile` run.  It records the processing
id, the post-transform hash and the original size — not any upload fileId. -/
structure CacheEntry where
  processingId : String
  finalHash : String
  size : Nat
deriving DecidableEq, Repr

/-- The mutable state of a FileProcessor instance relevant to the claims:
the deduplication cache and a counter standing in for `generateUniqueId`. -/
structure ProcState where
  dedupCache : List (String × CacheEntry)
  nextPid : Nat
deriving DecidableEq, Repr

/-- The options consulted by `processFile`
(`options.allowDeduplication !== false`, `options.encrypt !== false`). -/
structure POptions where
  allowDeduplication : Bool := true
  encryptOpt : Bool := true
deriving DecidableEq, Repr

/-- The result object of `processFile`.  In the deduplication short-circuit
the object carries `deduplicated = true` and the cache entry but has no
`processedPath` (hence `processedBytes = none`) and no `finalHash`; no
transform stage has run. -/
structure ProcessResult where
  success : Bool
  deduplicated : Bool
  existing : Option CacheEntry
  processingId : String
  originalHash : String
  finalHash : Option String
  processedBytes : Option (List Nat)
  compressed : Bool
  encrypted : Bool
  chunked : Bool
  chunks : List ChunkDesc
deriving DecidableEq, Repr

/-- `FileProcessor.processFile(filePath, options)` for a file that passes
validation.  Stages in source order: hash the original bytes; when
deduplication is enabled and the hash is cached and the caller has not
disabled dedup, return the short-circuit result; otherwise run the
compression stage, the encryption stage (the cipher output abstracted as
`encFn`), the chunking stage, hash the processed bytes, and record the
dedup-cache entry under the original hash. -/
def processFile (H : List Nat → String) (gz : List Nat → List Nat)
    (encFn : List Nat → List Nat) (cfg : Config) (st : ProcState)
    (content : List Nat) (opts : POptions) : ProcessResult × ProcState :=
  let originalHash := H content
  let pid := toString st.nextPid
  let st1 : ProcState := { st with nextPid := st.nextPid + 1 }
  let dedupHit : Option CacheEntry :=
    if cfg.enableDeduplication then
      match st.dedupCache.lookup originalHash with
      | some entry => if opts.allowDeduplication then some entry else none
      | none => none
    else none
  match dedupHit with
  | some entry =>
    ({ success := true, deduplicated := true, existing := some entry,
       processingId := pid, originalHash := originalHash, finalHash := none,
       processedBytes := none, compressed := false, encrypted := false,
       chunked := false, chunks := [] }, st1)
  | none =>
    let c := compressionStage cfg gz content
    let e :=
      if cfg.enableEncryption && opts.encryptOpt then (encFn c.1, true)
      else (c.1, false)
    let wasChunked := decide (e.1.length > cfg.chunkSize)
    let chunks := if wasChunked then chunkFile H cfg.chunkSize e.1 else []
    let finalHash := H e.1
    let st2 : ProcState :=
      if cfg.enableDeduplication then
        { st1 with dedupCache :=
            (originalHash,
              { processingId := pid, finalHash := finalHash,
                size := content.length }) :: st1.dedupCache }
      else st1
    ({ success := true, deduplicated := false, existing := none,
       processingId := pid, originalHash := originalHash,
       finalHash := some finalHash, processedBytes := some e.1,
       compressed := c.2, encrypted := e.2, chunked := wasChunked,
       chunks := chunks }, st2)

end FileProcessor

namespace Server

/-- Server-side state threaded through upload requests: the FileProcessor
state, the number of provider put operations issued so far (each
`providerManager.upload` call sends the bytes to at least one backend), and
a counter standing in for the fileIds minted by the providers. -/
structure ServerState where
  proc : FileProcessor.ProcState
  backendPuts : Nat
  nextFileId : Nat
deriving DecidableEq, Repr

/-- What the `POST /api/upload` handler pushes for one successfully handled
file, extended with the `processFile` result and the bytes handed to
`providerManager.upload` so the claims can inspect them. -/
structure RouteResult where
  success : Bool
  fileId : String
  procResult : FileProcessor.ProcessResult
  uploadedBytes : List Nat
deriving DecidableEq, Repr

/-- The per-file body of the `POST /api/upload` handler (src/app.js), for a
file that passes validation and whose provider upload succeeds: it calls
`fileProcessor.processFile` and then — without inspecting
`processingResult.deduplicated` — always calls `providerManager.upload` on
`processingResult.processedPath || file.path`, then records metadata and
answers with the fileId minted by that upload. -/
def handleUpload (H : List Nat → String) (gz : List Nat → List Nat)
    (encFn : List Nat → List Nat) (cfg : FileProcessor.Config)
    (st : ServerState) (content : List Nat) (opts : FileProcessor.POptions) :
    RouteResult × ServerState :=
  let pr := FileProcessor.processFile H gz encFn cfg st.proc content opts
  let uploadBytes := pr.1.processedBytes.getD content
  let fid := toString st.nextFileId
  ({ success := true, fileId := fid, procResult := pr.1,
     uploadedBytes := uploadBytes },
   { proc := pr.2, backendPuts := st.backendPuts + 1,
     nextFileId := st.nextFileId + 1 })

end Server

namespace MetadataManager

/-- The nested `processing` object of a metadata record (created by
`createMetadata` from the FileProcessor result).  `encryptionKey` and
`encryptionIv` are `some` when the corresponding field is present and truthy
(a key Buffer / IV Buffer), `none` when absent or falsy. -/
structure ProcessingMeta where
  encrypted : Bool
  encryptionKey : Option String
  encryptionIv : Option String
deriving DecidableEq, Repr

/-- The nested `blockchain` object; only the field touched by
`filterMetadata` is kept. -/
structure BlockchainMeta where
  gasUsed : Option Nat
  confirmed : Bool
deriving DecidableEq, Repr

/-- A metadata record, restricted to the fields `filterMetadata` touches.
`processing` is `none` when `createMetadata` received no processing result,
and `system` stands for the top-level `system` object. -/
structure Metadata where
  fileId : String
  processing : Option ProcessingMeta
  blockchain : BlockchainMeta
  system : Option String
deriving DecidableEq, Repr

/-- The options of `getMetadata` / `filterMetadata`.  `accessLevel` is `some`
when a truthy access level string was passed. -/
structure MetaOptions where
  includeSecrets : Bool := false
  accessLevel : Option String := none
deriving DecidableEq, Repr

/-- The in-place redaction performed on the shared `processing` object when
`includeSecrets` is not set: each present (truthy) secret field is
overwritten with the string `[REDACTED]`. -/
def redactProcessing (p : Option ProcessingMeta) : Option ProcessingMeta :=
  match p with
  | none => none
  | some pm =>
    some { pm with
      encryptionKey :=
        match pm.encryptionKey with
        | some _ => some "[REDACTED]"
        | none => none,
      encryptionIv :=
        match pm.encryptionIv with
        | some _ => some "[REDACTED]"
        | none => none }

/-- `MetadataManager.filterMetadata(metadata, options)`.  The source makes a
top-level spread copy (`let filteredMetadata = { ...metadata }`), so the
nested `processing` and `blockchain` objects of the copy ARE the originals;
the secret redaction and the `delete filteredMetadata.blockchain.gasUsed`
write through them into the cached record, while
`delete filteredMetadata.system` only touches the top-level copy.  The
embedding therefore returns the pair (object returned to the caller, state
of the original metadata object after the call). -/
def filterMetadata (metadata : Metadata) (opts : MetaOptions) :
    Metadata × Metadata :=
  let p2 :=
    if opts.includeSecrets then metadata.processing
    else redactProcessing metadata.processing
  let nonAdmin :=
    match opts.accessLevel with
    | some lvl => decide (lvl ≠ "admin")
    | none => false
  let bc2 :=
    if nonAdmin then { metadata.blockchain with gasUsed := none }
    else metadata.blockchain
  let shared : Metadata := { metadata with processing := p2, blockchain := bc2 }
  let callerResult := if nonAdmin then { shared with system := none } else shared
  (callerResult, shared)

/-- The stores behind `getMetadata`: the in-memory `metadataCache` map and
the on-disk `.meta.json` records read by `loadMetadataFromDisk`. -/
structure MetaStore where
  cache : List (String × Metadata)
  disk : List (String × Metadata)
deriving DecidableEq, Repr

/-- `Map.set`: replace the entry under the key or append it. -/
def setEntry (l : List (String × Metadata)) (k : String) (v : Metadata) :
    List (String × Metadata) :=
  match l with
  | [] => [(k, v)]
  | (k2, v2) :: rest =>
    if k2 = k then (k, v) :: rest else (k2, v2) :: setEntry rest k v

/-- `MetadataManager.getMetadata(fileId, options)`: cache-first lookup,
falling back to disk and repopulating the cache; the hit is passed through
`filterMetadata`, whose write-through to the shared nested objects leaves
the (possibly redacted) record in the cache.  Returns the caller-visible
result and the store state after the call. -/
def getMetadata (st : MetaStore) (fileId : String) (opts : MetaOptions) :
    Option Metadata × MetaStore :=
  match st.cache.lookup fileId with
  | some m =>
    let fm := filterMetadata m opts
    (some fm.1, { st with cache := setEntry st.cache fileId fm.2 })
  | none =>
    match st.disk.lookup fileId with
    | some m =>
      let fm := filterMetadata m opts
      (some fm.1, { st with cache := setEntry st.cache fileId fm.2 })
    | none => (none, st)

/-- A concrete cached record holding raw encryption secrets, used to exhibit
the cache mutation. -/
def sampleMeta : Metadata :=
  { fileId := "f",
    processing :=
      some { encrypted := true, encryptionKey := some "rawkey",
             encryptionIv := some "rawiv" },
    blockchain := { gasUsed := some 21000, confirmed := false },
    system := some "sys" }

/-- A store whose cache holds `sampleMeta`. -/
def sampleStore : MetaStore := { cache := [("f", sampleMeta)], disk := [] }

end MetadataManager

/-- A concrete instance of the abstract content hash, used to evaluate the
theorems on concrete inputs (any function works; this one is the decimal
length of the byte list). -/
def hashLen : List Nat → String := fun l => toString l.length

/-- Backends for the C5 counterexample: both providers connected but holding
no object under any key, so every candidate placement fails. -/
def emptyBackends : ProviderManager.PName → ProviderManager.BackendState :=
  fun _ => { connected := true, store := [] }

/-- Backends for the C5 witness: under the first generated key, storj holds a
corrupted object (its recorded hash does not match the retrieved bytes)
while arweave holds an intact one. -/
def corruptStorjBackends :
    ProviderManager.PName → ProviderManager.BackendState
  | ProviderManager.PName.storj =>
    { connected := true,
      store := [("uploads/abc", { bytes := [1, 2], recordedHash := "99" })] }
  | ProviderManager.PName.arweave =>
    { connected := true,
      store := [("uploads/abc", { bytes := [3, 4, 5], recordedHash := "3" })] }

namespace ProviderManager

/-- Every branch of the best-effort backup step succeeds and keeps
`primaryResult` as the primary of the caller-visible result. -/
theorem backupStep_ok (strategy : SelectedStrategy) (opts : UploadOptions)
    (putResult : PName → Except String PutOk)
    (primaryResult : PutOk) (attempts : List PName) :
    ∃ res, (backupStep strategy opts putResult primaryResult attempts).result =
        Except.ok res ∧ res.primary = primaryResult := by
  unfold backupStep
  rcases strategy.backupProvider with _ | b
  · exact ⟨_, rfl, rfl⟩
  · dsimp only
    by_cases hc : (decide (strategy.backup ≠ strategy.primary) && opts.createBackup) = true
    · rw [if_pos hc]
      cases hput : putResult b
      · exact ⟨_, rfl, rfl⟩
      · exact ⟨_, rfl, rfl⟩
    · rw [if_neg hc]
      exact ⟨_, rfl, rfl⟩

end ProviderManager

/-- C1: the claim states that `permanent = true` always yields the archival
backend (arweave) as the primary placement regardless of file size, with
override flags taking precedence over the size-bucket defaults.  The code
evaluates the strategy map in insertion order small, medium, large,
permanent, critical, and the three size buckets already cover every
possible file size, so the `permanent` (and `critical`) strategies are
unreachable: a 5-byte upload with `permanent = true` and every provider
healthy matches the `small` strategy and gets storj — not arweave — as
primary, and a 150MB permanent upload matches `large` with the same
outcome. -/
theorem C1_permanent_flag_never_selects_arweave :
    (ProviderManager.selectStrategy (fun _ => true) 5
        { permanent := true }).sname = "small" ∧
    (ProviderManager.selectStrategy (fun _ => true) 5
        { permanent := true }).primary = some ProviderManager.PName.storj ∧
    (ProviderManager.selectStrategy (fun _ => true) 5
        { permanent := true }).primaryProvider = some ProviderManager.PName.storj ∧
    (ProviderManager.selectStrategy (fun _ => true) (150 * 1024 * 1024)
        { permanent := true }).primary = some ProviderManager.PName.storj := by
  decide

/-- C3: the claim states the upload sends bytes only to a backend whose most
recent health check reported healthy, falling back to the backup and then to
any healthy backend, and failing with a no-backend-available error before
any bytes are sent when none is healthy.  In the code, `selectStrategy`
computes the health-adjusted NAMES but sets `primaryProvider` from the
nominal `strategy.primary` regardless of health, and `upload` sends the
bytes through `strategy.primaryProvider`: with storj unhealthy and arweave
healthy, a 5-byte upload reports arweave as the adjusted primary name yet
sends the bytes to unhealthy storj; and with no provider healthy at all the
upload still attempts (and here completes) the storj put instead of failing
fast with the no-backend-available error. -/
theorem C3_upload_sends_bytes_to_unhealthy_primary :
    (ProviderManager.selectStrategy ProviderManager.healthArweaveOnly 5
        {}).primary = some ProviderManager.PName.arweave ∧
    (ProviderManager.selectStrategy ProviderManager.healthArweaveOnly 5
        {}).primaryProvider = some ProviderManager.PName.storj ∧
    ProviderManager.healthArweaveOnly ProviderManager.PName.storj = false ∧
    (ProviderManager.upload ProviderManager.healthArweaveOnly 5 {} true
        ProviderManager.putAllOk).attempts = [ProviderManager.PName.storj] ∧
    (ProviderManager.upload (fun _ => false) 5 {} true
        ProviderManager.putAllOk).attempts = [ProviderManager.PName.storj] ∧
    (ProviderManager.upload (fun _ => false) 5 {} true
        ProviderManager.putAllOk).result =
      Except.ok
        { primary := { provider := ProviderManager.PName.storj, fileId := "f" },
          backups := [], strategyName := "small", totalUploads := 1 } :=
  ⟨rfl, rfl, rfl, rfl, rfl, rfl⟩

/-- C4: when the primary put fails, a backup provider object exists and
failover is enabled, the backup is attempted; if its put succeeds, its
result becomes the caller-visible primary placement, and if it also fails
the upload surfaces the combined error naming both failure messages. -/
theorem C4_failover_promotes_backup (health : ProviderManager.PName → Bool)
    (fileSize : Nat) (opts : ProviderManager.UploadOptions)
    (putResult : ProviderManager.PName → Except String ProviderManager.PutOk)
    (p b : ProviderManager.PName) (e : String)
    (hp : (ProviderManager.selectStrategy health fileSize opts).primaryProvider
        = some p)
    (hb : (ProviderManager.selectStrategy health fileSize opts).backupProvider
        = some b)
    (hpe : putResult p = Except.error e) :
    (∀ rb, putResult b = Except.ok rb →
      ∃ res, (ProviderManager.upload health fileSize opts true
          putResult).result = Except.ok res ∧ res.primary = rb) ∧
    (∀ e2, putResult b = Except.error e2 →
      (ProviderManager.upload health fileSize opts true putResult).result =
        Except.error
          ("Both primary and backup uploads failed: " ++ e ++ ", " ++ e2)) := by
  constructor
  · intro rb hrb
    obtain ⟨res, hres, hprim⟩ :=
      ProviderManager.backupStep_ok
        (ProviderManager.selectStrategy health fileSize opts) opts putResult rb
        [p, b]
    refine ⟨res, ?_, hprim⟩
    simp only [ProviderManager.upload, hp, hpe, hb, hrb, if_true]
    exact hres
  · intro e2 he2
    simp only [ProviderManager.upload, hp, hpe, hb, he2, if_true]

/-- Witness for C4 at a concrete input: a healthy-everywhere 5-byte upload
whose storj put throws and whose arweave put succeeds ends with the arweave
result as the caller-visible primary. -/
theorem C4_failover_promotes_backup_witness :
    ∃ res, (ProviderManager.upload (fun _ => true) 5 {} true
        ProviderManager.putStorjFails).result = Except.ok res ∧
      res.primary =
        { provider := ProviderManager.PName.arweave, fileId := "f2" } :=
  (C4_failover_promotes_backup (fun _ => true) 5 {}
    ProviderManager.putStorjFails ProviderManager.PName.storj
    ProviderManager.PName.arweave "storj put failed" rfl rfl rfl).1 _ rfl

/-- A provider download for a key the backend does not hold fails. -/
theorem providerDownload_missing (H : List Nat → String)
    (prov : ProviderManager.BackendState) (key : String)
    (hconn : prov.connected = true)
    (hl : prov.store.lookup key = none) :
    ProviderManager.providerDownload H prov key true =
      Except.error "download failed: NoSuchKey" := by
  unfold ProviderManager.providerDownload
  rw [if_neg (by simp [hconn]), hl]

/-- A provider download for a key holding an object whose recorded hash
matches the recomputed hash of the stored bytes succeeds with those bytes
and `integrity = true`. -/
theorem providerDownload_valid (H : List Nat → String)
    (prov : ProviderManager.BackendState) (key : String)
    (obj : ProviderManager.StoredObject)
    (hconn : prov.connected = true)
    (hl : prov.store.lookup key = some obj)
    (hv : H obj.bytes = obj.recordedHash) :
    ProviderManager.providerDownload H prov key true =
      Except.ok { bytes := obj.bytes, hash := H obj.bytes, integrity := true } := by
  unfold ProviderManager.providerDownload
  rw [if_neg (by simp [hconn]), hl]
  simp [hv]

/-- Under `strictIntegrity`, a provider download whose recomputed hash does
not match the recorded hash fails instead of returning the bytes. -/
theorem providerDownload_invalid (H : List Nat → String)
    (prov : ProviderManager.BackendState) (key : String)
    (obj : ProviderManager.StoredObject)
    (hconn : prov.connected = true)
    (hl : prov.store.lookup key = some obj)
    (hv : ¬H obj.bytes = obj.recordedHash) :
    ProviderManager.providerDownload H prov key true =
      Except.error "download failed: File integrity verification failed" := by
  unfold ProviderManager.providerDownload
  rw [if_neg (by simp [hconn]), hl]
  simp [hv]

/-- Anything the per-key loop returns under `strictIntegrity` passed the
recorded-hash comparison. -/
theorem tryKeys_integrity (H : List Nat → String)
    (prov : ProviderManager.BackendState) (hconn : prov.connected = true) :
    ∀ (keys : List String) (r : ProviderManager.DownloadOk),
      ProviderManager.tryKeys H prov true keys = some r →
        r.integrity = true ∧ r.hash = H r.bytes := by
  intro keys
  induction keys with
  | nil => intro r h; simp [ProviderManager.tryKeys] at h
  | cons k rest ih =>
    intro r h
    unfold ProviderManager.tryKeys at h
    cases hl : prov.store.lookup k with
    | none =>
      rw [providerDownload_missing H prov k hconn hl] at h
      exact ih r h
    | some obj =>
      by_cases hv : H obj.bytes = obj.recordedHash
      · rw [providerDownload_valid H prov k obj hconn hl hv] at h
        have h2 := Option.some.inj h
        subst h2
        exact ⟨rfl, rfl⟩
      · rw [providerDownload_invalid H prov k obj hconn hl hv] at h
        exact ih r h

/-- The per-key loop succeeds exactly when some candidate key holds an
object whose recorded hash matches the recomputed hash. -/
theorem tryKeys_some_iff (H : List Nat → String)
    (prov : ProviderManager.BackendState) (hconn : prov.connected = true) :
    ∀ keys : List String,
      ((∃ r, ProviderManager.tryKeys H prov true keys = some r) ↔
        ∃ k ∈ keys, ∃ obj, prov.store.lookup k = some obj ∧
          H obj.bytes = obj.recordedHash) := by
  intro keys
  induction keys with
  | nil => simp [ProviderManager.tryKeys]
  | cons k rest ih =>
    cases hl : prov.store.lookup k with
    | none =>
      have hd := providerDownload_missing H prov k hconn hl
      constructor
      · rintro ⟨r, hr⟩
        unfold ProviderManager.tryKeys at hr
        rw [hd] at hr
        obtain ⟨k2, hk2, hobj⟩ := ih.mp ⟨r, hr⟩
        exact ⟨k2, List.mem_cons_of_mem k hk2, hobj⟩
      · rintro ⟨k2, hk2, obj, hobj, hv⟩
        rcases List.mem_cons.mp hk2 with rfl | hk2
        · rw [hl] at hobj
          simp at hobj
        · obtain ⟨r, hr⟩ := ih.mpr ⟨k2, hk2, obj, hobj, hv⟩
          refine ⟨r, ?_⟩
          unfold ProviderManager.tryKeys
          rw [hd]
          exact hr
    | some obj =>
      by_cases hv : H obj.bytes = obj.recordedHash
      · have hd := providerDownload_valid H prov k obj hconn hl hv
        constructor
        · intro _
          exact ⟨k, List.mem_cons_self k rest, obj, hl, hv⟩
        · intro _
          refine ⟨{ bytes := obj.bytes, hash := H obj.bytes, integrity := true }, ?_⟩
          unfold ProviderManager.tryKeys
          rw [hd]
      · have hd := providerDownload_invalid H prov k obj hconn hl hv
        constructor
        · rintro ⟨r, hr⟩
          unfold ProviderManager.tryKeys at hr
          rw [hd] at hr
          obtain ⟨k2, hk2, hobj⟩ := ih.mp ⟨r, hr⟩
          exact ⟨k2, List.mem_cons_of_mem k hk2, hobj⟩
        · rintro ⟨k2, hk2, obj2, hobj, hv2⟩
          rcases List.mem_cons.mp hk2 with rfl | hk2
          · rw [hl] at hobj
            have h3 := Option.some.inj hobj
            subst h3
            exact absurd hv2 hv
          · obtain ⟨r, hr⟩ := ih.mpr ⟨k2, hk2, obj2, hobj, hv2⟩
            refine ⟨r, ?_⟩
            unfold ProviderManager.tryKeys
            rw [hd]
            exact hr

/-- Anything the provider loop returns under `strictIntegrity` passed the
recorded-hash comparison. -/
theorem downloadGo_integrity (H : List Nat → String)
    (health : ProviderManager.PName → Bool)
    (backends : ProviderManager.PName → ProviderManager.BackendState)
    (keys : List String)
    (hconn : ∀ p, (backends p).connected = true) :
    ∀ (ps : List ProviderManager.PName) (r : ProviderManager.DownloadOk),
      ProviderManager.downloadGo H health backends keys true ps = some r →
        r.integrity = true ∧ r.hash = H r.bytes := by
  intro ps
  induction ps with
  | nil => intro r h; simp [ProviderManager.downloadGo] at h
  | cons p rest ih =>
    intro r h
    unfold ProviderManager.downloadGo at h
    by_cases hh : ProviderManager.isProviderHealthy health p = true
    · rw [if_pos hh] at h
      cases ht : ProviderManager.tryKeys H (backends p) true keys with
      | some r2 =>
        rw [ht] at h
        have h2 := Option.some.inj h
        subst h2
        exact tryKeys_integrity H (backends p) (hconn p) keys r2 ht
      | none =>
        rw [ht] at h
        exact ih r h
    · rw [if_neg hh] at h
      exact ih r h

/-- The provider loop succeeds exactly when some healthy provider holds,
under one of the candidate keys, an object whose recorded hash matches the
recomputed hash. -/
theorem downloadGo_some_iff (H : List Nat → String)
    (health : ProviderManager.PName → Bool)
    (backends : ProviderManager.PName → ProviderManager.BackendState)
    (keys : List String)
    (hconn : ∀ p, (backends p).connected = true) :
    ∀ ps : List ProviderManager.PName,
      ((∃ r, ProviderManager.downloadGo H health backends keys true ps = some r) ↔
        ∃ p ∈ ps, health p = true ∧ ∃ k ∈ keys, ∃ obj,
          (backends p).store.lookup k = some obj ∧
            H obj.bytes = obj.recordedHash) := by
  intro ps
  induction ps with
  | nil => simp [ProviderManager.downloadGo]
  | cons p rest ih =>
    unfold ProviderManager.downloadGo
    by_cases hh : ProviderManager.isProviderHealthy health p = true
    · rw [if_pos hh]
      cases ht : ProviderManager.tryKeys H (backends p) true keys with
      | some r2 =>
        constructor
        · intro _
          obtain ⟨k, hk, obj, hobj, hv⟩ :=
            (tryKeys_some_iff H (backends p) (hconn p) keys).mp ⟨r2, ht⟩
          exact ⟨p, List.mem_cons_self p rest, hh, k, hk, obj, hobj, hv⟩
        · intro _
          exact ⟨r2, rfl⟩
      | none =>
        constructor
        · rintro ⟨r, hr⟩
          obtain ⟨p2, hp2, hrest⟩ := ih.mp ⟨r, hr⟩
          exact ⟨p2, List.mem_cons_of_mem p hp2, hrest⟩
        · rintro ⟨p2, hp2, hh2, k, hk, obj, hobj, hv⟩
          rcases List.mem_cons.mp hp2 with rfl | hp2
          · exfalso
            obtain ⟨r, hr⟩ :=
              (tryKeys_some_iff H (backends p2) (hconn p2) keys).mpr
                ⟨k, hk, obj, hobj, hv⟩
            rw [ht] at hr
            simp at hr
          · obtain ⟨r, hr⟩ := ih.mpr ⟨p2, hp2, hh2, k, hk, obj, hobj, hv⟩
            exact ⟨r, hr⟩
    · rw [if_neg hh, ih]
      constructor
      · rintro ⟨p2, hp2, hrest⟩
        exact ⟨p2, List.mem_cons_of_mem p hp2, hrest⟩
      · rintro ⟨p2, hp2, hh2, hrest⟩
        rcases List.mem_cons.mp hp2 with rfl | hp2
        · exact absurd hh2 hh
        · exact ⟨p2, hp2, hh2, hrest⟩

/-- C5 (amended): under `strictIntegrity` (as the download endpoint passes
it) and with both providers connected, every candidate placement's bytes are
re-hashed and compared against the recorded hash before being returned: a
successful download always carries `integrity = true` (mismatching bytes are
never returned, the next candidate is tried instead); the download succeeds
exactly when some healthy provider holds an intact object under a candidate
key (so it fails only when every candidate has failed); and on failure the
aggregated error carries an EMPTY per-placement cause list — the per-key
loop swallows every candidate error, so the `downloadAttempts` collection of
the source is never appended to. -/
theorem C5_download_integrity_and_empty_causes (H : List Nat → String)
    (health : ProviderManager.PName → Bool)
    (backends : ProviderManager.PName → ProviderManager.BackendState)
    (fileId : String) (origName : Option String)
    (hconn : ∀ p, (backends p).connected = true) :
    (∀ r, ProviderManager.download H health backends fileId origName true =
        Except.ok r → r.integrity = true ∧ r.hash = H r.bytes) ∧
    ((∃ p ∈ ProviderManager.providerKeys, health p = true ∧
        ∃ k ∈ ProviderManager.generatePossibleKeys fileId origName, ∃ obj,
          (backends p).store.lookup k = some obj ∧
            H obj.bytes = obj.recordedHash) ↔
      ∃ r, ProviderManager.download H health backends fileId origName true =
        Except.ok r) ∧
    (∀ e, ProviderManager.download H health backends fileId origName true =
        Except.error e →
      e.attempts = [] ∧ e.message = "Download failed from all providers: ") := by
  refine ⟨?_, ?_, ?_⟩
  · intro r h
    unfold ProviderManager.download at h
    cases hgo : ProviderManager.downloadGo H health backends
        (ProviderManager.generatePossibleKeys fileId origName) true
        ProviderManager.providerKeys with
    | some r0 =>
      rw [hgo] at h
      have h2 := Except.ok.inj h
      subst h2
      exact downloadGo_integrity H health backends _ hconn _ r0 hgo
    | none =>
      rw [hgo] at h
      simp at h
  · constructor
    · intro hex
      obtain ⟨r, hr⟩ :=
        (downloadGo_some_iff H health backends
          (ProviderManager.generatePossibleKeys fileId origName) hconn
          ProviderManager.providerKeys).mpr hex
      refine ⟨r, ?_⟩
      unfold ProviderManager.download
      rw [hr]
    · rintro ⟨r, hr⟩
      unfold ProviderManager.download at hr
      cases hgo : ProviderManager.downloadGo H health backends
          (ProviderManager.generatePossibleKeys fileId origName) true
          ProviderManager.providerKeys with
      | some r0 =>
        exact (downloadGo_some_iff H health backends
          (ProviderManager.generatePossibleKeys fileId origName) hconn
          ProviderManager.providerKeys).mp ⟨r0, hgo⟩
      | none =>
        rw [hgo] at hr
        simp at hr
  · intro e he
    unfold ProviderManager.download at he
    cases hgo : ProviderManager.downloadGo H health backends
        (ProviderManager.generatePossibleKeys fileId origName) true
        ProviderManager.providerKeys with
    | some r0 =>
      rw [hgo] at he
      simp at he
    | none =>
      rw [hgo] at he
      have h2 := Except.error.inj he
      subst h2
      exact ⟨rfl, rfl⟩

/-- Witness for C5 (amended) at a concrete input: storj holds a corrupted
copy under the first candidate key and arweave an intact one; the download
succeeds and the returned bytes pass the integrity check. -/
theorem C5_download_integrity_and_empty_causes_witness :
    ∃ r, ProviderManager.download hashLen (fun _ => true) corruptStorjBackends
        "abc" none true = Except.ok r ∧
      r.integrity = true ∧ r.hash = hashLen r.bytes := by
  have h := C5_download_integrity_and_empty_causes hashLen (fun _ => true)
    corruptStorjBackends "abc" none (fun p => by cases p <;> rfl)
  obtain ⟨r, hr⟩ := h.2.1.mp
    ⟨ProviderManager.PName.arweave, by decide, rfl, "uploads/abc", by decide,
      { bytes := [3, 4, 5], recordedHash := "3" }, by decide, by decide⟩
  exact ⟨r, hr, (h.1 r hr).1, (h.1 r hr).2⟩

/-- C5 (counterexample to the claim as stated): the claim asserts that when
every placement fails, the download fails "with an aggregated error
containing the per-placement causes".  With both providers connected and
healthy but holding no object, every candidate placement fails with a
NoSuchKey cause, yet the thrown aggregated error contains no cause at all:
its attempt list is empty and its message is the bare aggregation text. -/
theorem C5_aggregated_error_has_no_causes :
    ProviderManager.download hashLen (fun _ => true) emptyBackends
        "file1" none true =
      Except.error (ProviderManager.DownloadError.mk
        "Download failed from all providers: " []) := by
  rfl

/-- C9: for a cached record holding raw encryption secrets, `getMetadata`
without `includeSecrets` returns a record whose encryption key and IV read
`[REDACTED]` — never the raw values — while a call with `includeSecrets`
(from the same store state) returns the raw `processing` object
unchanged. -/
theorem C9_secrets_redacted_unless_requested
    (st : MetadataManager.MetaStore) (fileId : String)
    (m : MetadataManager.Metadata) (pm : MetadataManager.ProcessingMeta)
    (k ivs : String)
    (hm : st.cache.lookup fileId = some m)
    (hp : m.processing = some pm)
    (hk : pm.encryptionKey = some k)
    (hi : pm.encryptionIv = some ivs) :
    (∃ res, (MetadataManager.getMetadata st fileId {}).1 = some res ∧
      res.processing = some (MetadataManager.ProcessingMeta.mk pm.encrypted
        (some "[REDACTED]") (some "[REDACTED]"))) ∧
    (∃ res, (MetadataManager.getMetadata st fileId
        { includeSecrets := true }).1 = some res ∧ res.processing = some pm) := by
  constructor
  · refine ⟨(MetadataManager.filterMetadata m {}).1, ?_, ?_⟩
    · simp only [MetadataManager.getMetadata, hm]
    · simp only [MetadataManager.filterMetadata, MetadataManager.redactProcessing,
        hp, hk, hi]
      rfl
  · refine ⟨(MetadataManager.filterMetadata m { includeSecrets := true }).1,
      ?_, ?_⟩
    · simp only [MetadataManager.getMetadata, hm]
    · simp only [MetadataManager.filterMetadata, hp]
      rfl

/-- Witness for C9 at a concrete input: the sample store's record is
returned redacted without `includeSecrets` and raw with it. -/
theorem C9_secrets_redacted_unless_requested_witness :
    (∃ res, (MetadataManager.getMetadata MetadataManager.sampleStore "f"
        {}).1 = some res ∧
      res.processing = some (MetadataManager.ProcessingMeta.mk true
        (some "[REDACTED]") (some "[REDACTED]"))) ∧
    (∃ res, (MetadataManager.getMetadata MetadataManager.sampleStore "f"
        { includeSecrets := true }).1 = some res ∧
      res.processing = some (MetadataManager.ProcessingMeta.mk true
        (some "rawkey") (some "rawiv"))) :=
  C9_secrets_redacted_unless_requested MetadataManager.sampleStore "f"
    MetadataManager.sampleMeta
    { encrypted := true, encryptionKey := some "rawkey",
      encryptionIv := some "rawiv" } "rawkey" "rawiv" rfl rfl rfl rfl

/-- C10: the claim states that reading metadata is side-effect-free on the
store.  In the code `filterMetadata` copies only the top level
(`let filteredMetadata = { ...metadata }`), so redacting
`filteredMetadata.processing.encryptionKey` writes through the shared
nested object into the cached record: after one `getMetadata` call without
`includeSecrets` on the sample store, the cache holds `[REDACTED]` in place
of the raw key and IV, and a subsequent authorized read with
`includeSecrets` can only return `[REDACTED]` — the stored secrets are
unrecoverable. -/
theorem C10_unauthorized_read_corrupts_cache :
    (((MetadataManager.getMetadata MetadataManager.sampleStore "f"
          {}).2.cache.lookup "f").map
        (fun m => m.processing)) =
      some (some (MetadataManager.ProcessingMeta.mk true
        (some "[REDACTED]") (some "[REDACTED]"))) ∧
    ((MetadataManager.getMetadata
          ((MetadataManager.getMetadata MetadataManager.sampleStore "f"
            {}).2) "f" { includeSecrets := true }).1.map
        (fun m => m.processing)) =
      some (some (MetadataManager.ProcessingMeta.mk true
        (some "[REDACTED]") (some "[REDACTED]"))) := by
  decide

/-- XORing against the same keystream twice is the identity. -/
theorem xorKeystream_xorKeystream (ks : Nat → Nat) (l : List Nat) :
    Encryption.xorKeystream ks (Encryption.xorKeystream ks l) = l := by
  induction l generalizing ks with
  | nil => rfl
  | cons b rest ih =>
    simp only [Encryption.xorKeystream, Nat.xor_cancel_right]
    rw [ih]

/-- The GCM tag is always 16 bytes long. -/
theorem gcmTag_length (mac : List Nat → List Nat → Nat → Nat)
    (key ct : List Nat) : (Encryption.gcmTag mac key ct).length = 16 := by
  simp [Encryption.gcmTag, Encryption.TAG_LENGTH]

/-- C6: for every byte sequence and every 32-byte key accepted by `encrypt`
(and every fresh 16-byte IV, as produced by `generateIV`), decrypting the
combined IV + tag + ciphertext buffer returned by `encrypt` with the
returned key yields exactly the original bytes, for every keystream and
every tag function of the underlying cipher. -/
theorem C6_encrypt_decrypt_roundtrip (ks : List Nat → Nat → Nat)
    (mac : List Nat → List Nat → Nat → Nat) (data key iv : List Nat)
    (hkey : key.length = 32) (hiv : iv.length = 16) :
    ∃ r, Encryption.encrypt ks mac data key iv = some r ∧
      Encryption.decrypt ks mac r.encrypted r.key = some data := by
  refine ⟨Encryption.EncryptResult.mk
      (iv ++
        (Encryption.gcmTag mac key (Encryption.xorKeystream (ks key) data) ++
          Encryption.xorKeystream (ks key) data))
      key iv
      (Encryption.gcmTag mac key (Encryption.xorKeystream (ks key) data)),
    ?_, ?_⟩
  · simp only [Encryption.encrypt, Encryption.KEY_LENGTH]
    rw [if_pos hkey]
  · simp only [Encryption.decrypt, Encryption.IV_LENGTH, Encryption.TAG_LENGTH,
      Encryption.KEY_LENGTH]
    have htg : (Encryption.gcmTag mac key
        (Encryption.xorKeystream (ks key) data)).length = 16 :=
      gcmTag_length mac key _
    have hdrop16 : (iv ++
        (Encryption.gcmTag mac key (Encryption.xorKeystream (ks key) data) ++
          Encryption.xorKeystream (ks key) data)).drop 16 =
        Encryption.gcmTag mac key (Encryption.xorKeystream (ks key) data) ++
          Encryption.xorKeystream (ks key) data :=
      List.drop_left' hiv
    have hdrop32 : (iv ++
        (Encryption.gcmTag mac key (Encryption.xorKeystream (ks key) data) ++
          Encryption.xorKeystream (ks key) data)).drop (16 + 16) =
        Encryption.xorKeystream (ks key) data := by
      rw [← List.drop_drop, hdrop16]
      exact List.drop_left' htg
    have hlen : ¬((iv ++
        (Encryption.gcmTag mac key (Encryption.xorKeystream (ks key) data) ++
          Encryption.xorKeystream (ks key) data)).length < 16 + 16) := by
      simp only [List.length_append, hiv, htg]
      omega
    rw [if_neg hlen, hdrop32, hdrop16, if_pos hkey,
      List.take_left' htg, if_pos rfl, xorKeystream_xorKeystream]

/-- Witness for C6 at a concrete input: a 3-byte payload, the all-zero
32-byte key, an all-one 16-byte IV, the zero keystream and the zero tag
function round-trip. -/
theorem C6_encrypt_decrypt_roundtrip_witness :
    ∃ r, Encryption.encrypt (fun _ _ => 0) (fun _ _ _ => 0) [7, 8, 9]
        (List.replicate 32 0) (List.replicate 16 1) = some r ∧
      Encryption.decrypt (fun _ _ => 0) (fun _ _ _ => 0) r.encrypted r.key =
        some [7, 8, 9] :=
  C6_encrypt_decrypt_roundtrip (fun _ _ => 0) (fun _ _ _ => 0) [7, 8, 9]
    (List.replicate 32 0) (List.replicate 16 1) (by simp) (by simp)

/-- C2: the claim states that uploading byte-identical content twice with
deduplication enabled issues no second backend put, the second call
returning `deduplicated = true` with the first upload's fileId.  In the
code, `FileProcessor.processFile` does short-circuit at the
deduplication-index lookup (the result of the second call carries
`deduplicated = true` and no further transform stage runs), but the
`POST /api/upload` handler never inspects that flag: it calls
`providerManager.upload` unconditionally — on `processedPath || file.path`,
which for the dedup result (no `processedPath`) is the original file — so a
second backend put is issued, and the response carries a freshly minted
fileId rather than a reference to the first upload (the dedup cache entry
stores only processingId/finalHash/size, no fileId at all).  Two identical
3-byte uploads end with two backend puts. -/
theorem C2_dedup_second_upload_still_puts :
    (Server.handleUpload hashLen id id { enableEncryption := false }
        ((Server.handleUpload hashLen id id { enableEncryption := false }
          { proc := { dedupCache := [], nextPid := 0 }, backendPuts := 0,
            nextFileId := 0 } [1, 2, 3] {}).2) [1, 2, 3] {}).1.procResult.deduplicated
      = true ∧
    (Server.handleUpload hashLen id id { enableEncryption := false }
        ((Server.handleUpload hashLen id id { enableEncryption := false }
          { proc := { dedupCache := [], nextPid := 0 }, backendPuts := 0,
            nextFileId := 0 } [1, 2, 3] {}).2) [1, 2, 3] {}).2.backendPuts = 2 ∧
    (Server.handleUpload hashLen id id { enableEncryption := false }
        ((Server.handleUpload hashLen id id { enableEncryption := false }
          { proc := { dedupCache := [], nextPid := 0 }, backendPuts := 0,
            nextFileId := 0 } [1, 2, 3] {}).2) [1, 2, 3] {}).1.fileId = "1" ∧
    (Server.handleUpload hashLen id id { enableEncryption := false }
        ((Server.handleUpload hashLen id id { enableEncryption := false }
          { proc := { dedupCache := [], nextPid := 0 }, backendPuts := 0,
            nextFileId := 0 } [1, 2, 3] {}).2) [1, 2, 3] {}).1.uploadedBytes
      = [1, 2, 3] := by
  decide

/-- The byte range `[s, min (s + c) len)` of `chunkFile` is the same list as
taking `c` elements after dropping `s`. -/
theorem take_min_sub (c s : Nat) (data : List Nat) :
    (data.drop s).take (min (s + c) data.length - s) = (data.drop s).take c := by
  rcases Nat.le_total (s + c) data.length with h | h
  · have he : min (s + c) data.length - s = c := by omega
    rw [he]
  · have hd : (data.drop s).length = data.length - s := List.length_drop s data
    rw [List.take_of_length_le (by omega), List.take_of_length_le (by omega)]

/-- Concatenating the `c`-sized slices of a list of length at most `n * c`
reproduces the list. -/
theorem flatten_chunks (c : Nat) :
    ∀ (n : Nat) (data : List Nat), data.length ≤ n * c →
      ((List.range n).map (fun i => (data.drop (i * c)).take c)).flatten =
        data := by
  intro n
  induction n with
  | zero =>
    intro data h
    have hz : data = [] := List.length_eq_zero.mp (by omega)
    subst hz
    rfl
  | succ n ih =>
    intro data h
    rw [List.range_succ_eq_map]
    simp only [List.map_cons, List.map_map, List.flatten_cons]
    have hmap : (List.range n).map
          ((fun i => (data.drop (i * c)).take c) ∘ Nat.succ) =
        (List.range n).map (fun i => ((data.drop c).drop (i * c)).take c) := by
      apply List.map_congr_left
      intro i _
      simp only [Function.comp]
      rw [List.drop_drop]
      have harith : i.succ * c = c + i * c := by
        rw [Nat.succ_mul, Nat.add_comm]
      rw [harith]
    have hlen : (data.drop c).length ≤ n * c := by
      have h1 : (n + 1) * c = n * c + c := by ring
      simp only [List.length_drop]
      omega
    rw [hmap, ih (data.drop c) hlen]
    simp only [Nat.zero_mul, List.drop_zero]
    exact List.take_append_drop c data

/-- The bytes of the chunks of `chunkFile` are the `c`-sized slices of the
data. -/
theorem chunkFile_bytes (H : List Nat → String) (c : Nat) (data : List Nat) :
    (FileProcessor.chunkFile H c data).map (fun ch => ch.bytes) =
      (List.range ((data.length + c - 1) / c)).map
        (fun i => (data.drop (i * c)).take c) := by
  unfold FileProcessor.chunkFile
  simp only [List.map_map]
  apply List.map_congr_left
  intro i _
  simp only [Function.comp]
  exact take_min_sub c (i * c) data

/-- A list of length `len` fits into `ceil(len / c)` chunks of size `c`. -/
theorem len_le_ceil_mul (c len : Nat) (hc : 0 < c) :
    len ≤ ((len + c - 1) / c) * c := by
  have h1 := Nat.div_add_mod (len + c - 1) c
  have h2 : (len + c - 1) % c < c := Nat.mod_lt _ hc
  have h3 : c * ((len + c - 1) / c) = ((len + c - 1) / c) * c := Nat.mul_comm _ _
  omega

/-- The chunk list produced by `chunkFile` is sorted by ascending index. -/
theorem chunkFile_sorted (H : List Nat → String) (c : Nat) (data : List Nat) :
    List.Sorted (fun a b : FileProcessor.ChunkDesc => a.index ≤ b.index)
      (FileProcessor.chunkFile H c data) := by
  unfold FileProcessor.chunkFile List.Sorted
  rw [List.pairwise_map]
  exact (List.pairwise_lt_range _).imp Nat.le_of_lt

/-- C7: for a positive chunk size `c` exceeded by the file size, `chunkFile`
produces exactly `ceil(size / c)` chunks (`(size + c - 1) / c`), records
`H chunk.bytes` as each chunk's hash, makes every chunk but the final one
exactly `c` bytes (the final one no larger), and `reconstructFile`
(concatenation in ascending index order) reproduces exactly the original
bytes, so the reconstructed content hashes to the final hash `H data` of the
stored bytes. -/
theorem C7_chunking_reconstruction (H : List Nat → String) (c : Nat)
    (data : List Nat) (hc : 0 < c) (hgt : c < data.length) :
    (FileProcessor.chunkFile H c data).length = (data.length + c - 1) / c ∧
    (∀ ch ∈ FileProcessor.chunkFile H c data, ch.hash = H ch.bytes) ∧
    (∀ ch ∈ FileProcessor.chunkFile H c data,
      ch.index + 1 < (FileProcessor.chunkFile H c data).length →
        ch.size = c) ∧
    (∀ ch ∈ FileProcessor.chunkFile H c data, ch.size ≤ c) ∧
    FileProcessor.reconstructFile (FileProcessor.chunkFile H c data) = data ∧
    H (FileProcessor.reconstructFile (FileProcessor.chunkFile H c data)) =
      H data := by
  have hrec :
      FileProcessor.reconstructFile (FileProcessor.chunkFile H c data) =
        data := by
    unfold FileProcessor.reconstructFile
    rw [List.Sorted.insertionSort_eq (chunkFile_sorted H c data),
      chunkFile_bytes H c data]
    exact flatten_chunks c _ data (len_le_ceil_mul c data.length hc)
  have hsize : ∀ ch ∈ FileProcessor.chunkFile H c data,
      ch.size = min c (data.length - ch.index * c) := by
    intro ch hch
    unfold FileProcessor.chunkFile at hch
    obtain ⟨i, _, rfl⟩ := List.mem_map.mp hch
    simp only [List.length_take, List.length_drop]
    omega
  refine ⟨?_, ?_, ?_, ?_, hrec, by rw [hrec]⟩
  · unfold FileProcessor.chunkFile
    simp
  · intro ch hch
    unfold FileProcessor.chunkFile at hch
    obtain ⟨i, _, rfl⟩ := List.mem_map.mp hch
    rfl
  · intro ch hch hlast
    have hs := hsize ch hch
    unfold FileProcessor.chunkFile at hch hlast
    obtain ⟨i, _, rfl⟩ := List.mem_map.mp hch
    simp only [List.length_map, List.length_range] at hlast
    have h4 : ((data.length + c - 1) / c) * c ≤ data.length + c - 1 :=
      Nat.div_mul_le_self _ _
    have h5 : (i + 1) * c ≤ ((data.length + c - 1) / c - 1) * c :=
      Nat.mul_le_mul_right c (by omega)
    have h6 : ((data.length + c - 1) / c - 1) * c =
        ((data.length + c - 1) / c) * c - 1 * c := Nat.sub_mul _ _ _
    have h7 : (i + 1) * c = i * c + c := by ring
    rw [hs]
    simp only
    omega
  · intro ch hch
    have hs := hsize ch hch
    rw [hs]
    omega

/-- Witness for C7 at a concrete input: chunk size 2 on a 5-byte file gives
3 chunks that reconstruct to the original bytes. -/
theorem C7_chunking_reconstruction_witness :
    (FileProcessor.chunkFile hashLen 2 [1, 2, 3, 4, 5]).length = 3 ∧
    FileProcessor.reconstructFile
      (FileProcessor.chunkFile hashLen 2 [1, 2, 3, 4, 5]) = [1, 2, 3, 4, 5] :=
  ⟨(C7_chunking_reconstruction hashLen 2 [1, 2, 3, 4, 5] (by decide)
      (by decide)).1,
   (C7_chunking_reconstruction hashLen 2 [1, 2, 3, 4, 5] (by decide)
      (by decide)).2.2.2.2.1⟩

/-- The compression stage of `processFile`, with compression enabled,
replaces the working bytes by the compressed ones exactly when the original
size exceeds the threshold and the compressed size is strictly below 90% of
it. -/
theorem compressionStage_eq (cfg : FileProcessor.Config)
    (gz : List Nat → List Nat) (data : List Nat)
    (hen : cfg.enableCompression = true) :
    FileProcessor.compressionStage cfg gz data =
      if cfg.compressionThreshold < data.length ∧
          10 * (gz data).length < 9 * data.length
      then (gz data, true) else (data, false) := by
  unfold FileProcessor.compressionStage FileProcessor.compressFile
  by_cases h1 : cfg.compressionThreshold < data.length <;>
    by_cases h2 : 10 * (gz data).length < 9 * data.length <;>
      simp [hen, h1, h2]

/-- C8: compression is attempted only when the input exceeds the configured
threshold (below it the outcome does not depend on the compressor at all and
the original bytes are kept with `compressed = false`), and its result is
kept exactly when the compressed size is strictly smaller than 90% of the
original size; otherwise the original bytes are kept unchanged. -/
theorem C8_compression_gate (cfg : FileProcessor.Config)
    (gz : List Nat → List Nat) (data : List Nat)
    (hen : cfg.enableCompression = true) :
    ((FileProcessor.compressionStage cfg gz data).2 = true ↔
      (cfg.compressionThreshold < data.length ∧
        10 * (gz data).length < 9 * data.length)) ∧
    (data.length ≤ cfg.compressionThreshold →
      ∀ gz2, FileProcessor.compressionStage cfg gz2 data = (data, false)) ∧
    ((FileProcessor.compressionStage cfg gz data).2 = true →
      (FileProcessor.compressionStage cfg gz data).1 = gz data) ∧
    ((FileProcessor.compressionStage cfg gz data).2 = false →
      (FileProcessor.compressionStage cfg gz data).1 = data) := by
  refine ⟨?_, ?_, ?_, ?_⟩
  · rw [compressionStage_eq cfg gz data hen]
    by_cases h : cfg.compressionThreshold < data.length ∧
        10 * (gz data).length < 9 * data.length <;> simp [h]
  · intro hsmall gz2
    rw [compressionStage_eq cfg gz2 data hen, if_neg]
    intro h
    omega
  · rw [compressionStage_eq cfg gz data hen]
    by_cases h : cfg.compressionThreshold < data.length ∧
        10 * (gz data).length < 9 * data.length <;> simp [h]
  · rw [compressionStage_eq cfg gz data hen]
    by_cases h : cfg.compressionThreshold < data.length ∧
        10 * (gz data).length < 9 * data.length <;> simp [h]

/-- Witness for C8 at a concrete input: a 3-byte input over a 2-byte
threshold whose compressor returns a single byte (well below 90%) is
compressed, and the same input below a larger threshold is left unchanged by
any compressor. -/
theorem C8_compression_gate_witness :
    (FileProcessor.compressionStage { compressionThreshold := 2 }
        (fun _ => [0]) [1, 2, 3]).2 = true ∧
    FileProcessor.compressionStage { compressionThreshold := 7 }
        (fun _ => [0]) [1, 2, 3] = ([1, 2, 3], false) :=
  ⟨(C8_compression_gate { compressionThreshold := 2 } (fun _ => [0]) [1, 2, 3]
      rfl).1.mpr (by decide),
   (C8_compression_gate { compressionThreshold := 7 } (fun _ => [0]) [1, 2, 3]
      rfl).2.1 (by decide) _⟩
